import Mathlib

/-!
# Verification of the `csim` Landlord cache simulator

A shallow embedding, in Lean 4, of the Rust sources of the `csim`
trace-driven Landlord cache simulator (`src/main.rs`, `src/logger.rs`,
`src/cost.rs`), together with theorems settling the frozen claims about
its specification.

Modelling conventions:
* Rust `u32` values (costs, sizes, capacities, occupancy counters) are
  modelled as `Nat`.  Where the source subtracts `u32` values, the
  embedding checks for underflow explicitly and treats an underflowing
  subtraction as a failure (`none`), matching the arithmetic-overflow
  panic of a checked build; no witness below exercises the wrap-around
  of an unchecked build, so the two readings never diverge in this file.
* Rust `f32` values (credits, pressures) are modelled as exact rationals
  together with an explicit binary32 rounding function `rnd24`:
  round-to-nearest, ties-to-even, 24-bit significand, with unbounded
  exponent range.  Every arithmetic operation of the source is performed
  by rounding the exact rational result, exactly as IEEE-754 prescribes
  for values in the normal range.  All concrete values appearing in the
  theorems below are far away from binary32 overflow and subnormal
  territory, where this model coincides with IEEE-754 binary32.
* Panics (`panic!`, `expect`, out-of-bounds indexing, empty
  `random_range`) are modelled by `Option`/dedicated error constructors.
* The thread-local PRNG (`rand::rng()`) is modelled by an explicit
  stream of draws (`Rng`) threaded through the computation; drawing
  consumes the stream.
-/

namespace Csim

/-! ## Binary32 rounding model -/

/-- Round `n / d` (with `d ≠ 0`) to the nearest integer, ties to even:
the rounding used by IEEE-754 round-to-nearest-even once the value has
been scaled into the significand range. -/
def rhe (n d : ℕ) : ℕ :=
  let q := n / d
  let r := n % d
  if 2 * r < d then q
  else if d < 2 * r then q + 1
  else if q % 2 = 0 then q else q + 1

/-- Decides `2 ^ e ≤ n / d` for an integer exponent `e` and positive naturals,
decided with integer arithmetic only. -/
def pow2le (e : ℤ) (n d : ℕ) : Bool :=
  if 0 ≤ e then decide (d * 2 ^ e.toNat ≤ n) else decide (d ≤ n * 2 ^ (-e).toNat)

/-- Computes `⌊log₂ n⌋` by repeated halving, with structural recursion on a fuel
argument so that it reduces inside the kernel (`Nat.log2` is defined by
well-founded recursion and does not). -/
def log2Aux : ℕ → ℕ → ℕ
  | 0, _ => 0
  | fuel + 1, n => if n ≤ 1 then 0 else log2Aux fuel (n / 2) + 1

/-- Computes `⌊log₂ n⌋` for `n ≥ 1` (and `0` at `0`). -/
def natLog2 (n : ℕ) : ℕ := log2Aux n n

/-- Computes `⌊log₂ (n / d)⌋` for positive naturals `n`, `d`. The candidate
`log₂ n − log₂ d` is exact or one too large, so a single correction
step suffices. -/
def ilog2q (n d : ℕ) : ℤ :=
  let e0 : ℤ := (natLog2 n : ℤ) - (natLog2 d : ℤ)
  if pow2le e0 n d then e0 else e0 - 1

/-- Round a rational to the nearest IEEE-754 binary32 value
(round-to-nearest, ties-to-even, 24-bit significand), with unbounded
exponent range: overflow to infinity and subnormal rounding are not
modelled, which is faithful for all magnitudes arising in this file. -/
def rnd24 (q : ℚ) : ℚ :=
  if q = 0 then 0
  else
    let n := q.num.natAbs
    let d := q.den
    let e := ilog2q n d
    let s : ℤ := 23 - e
    let m : ℕ := if 0 ≤ s then rhe (n * 2 ^ s.toNat) d else rhe n (d * 2 ^ (-s).toNat)
    let mag : ℚ := if 0 ≤ s then (m : ℚ) / ((2 ^ s.toNat : ℕ) : ℚ) else ((m * 2 ^ (-s).toNat : ℕ) : ℚ)
    if q < 0 then -mag else mag

/-- binary32 addition: round the exact sum. -/
def fadd (a b : ℚ) : ℚ := rnd24 (a + b)

/-- binary32 subtraction: round the exact difference. -/
def fsub (a b : ℚ) : ℚ := rnd24 (a - b)

/-- binary32 multiplication: round the exact product. -/
def fmul (a b : ℚ) : ℚ := rnd24 (a * b)

/-- binary32 division: round the exact quotient.  Division by zero does
not occur at any point this function is applied in this file (divisors
are item sizes and the literal `2.0`); rational division by zero yields
`0`. -/
def fdiv (a b : ℚ) : ℚ := rnd24 (a / b)

/-- The binary32 value of a `u32`, as produced by Rust's `as f32` cast
(round to nearest). -/
def fofNat (n : ℕ) : ℚ := rnd24 (n : ℚ)

/-! ## Data model (`src/main.rs`) -/

/-- Rust `struct Item { label: String, cost: u32, size: u32 }`. -/
structure Item where
  label : String
  cost : ℕ
  size : ℕ
deriving DecidableEq, Repr

/-- The item equality derived by `#[derive(PartialEq, Eq)]` on `Item`:
all three fields are compared. -/
def Item.eqDerived (a b : Item) : Bool :=
  a.label == b.label && a.cost == b.cost && a.size == b.size

/-- The item comparison derived by `#[derive(PartialOrd, Ord)]` on
`Item`: lexicographic over the fields in declaration order
(`label`, then `cost`, then `size`).  Rust orders `String`s by their
UTF-8 bytes, which coincides with the code-point order `compare` uses
on Lean `String`s. -/
def Item.cmpDerived (a b : Item) : Ordering :=
  match compare a.label b.label with
  | .eq =>
    match compare a.cost b.cost with
    | .eq => compare a.size b.size
    | o => o
  | o => o

/-- Rust `Item::get_cost`: `self.cost as f32`. -/
def Item.get_cost (i : Item) : ℚ := fofNat i.cost

/-- Rust `enum HitPolicy { Lru, Fifo, Rand, Half }`. -/
inductive HitPolicy where
  | Lru | Fifo | Rand | Half
deriving DecidableEq, Repr

/-- Rust `enum TiebreakingPolicy { Lru, Fifo, Rand }`. -/
inductive TiebreakingPolicy where
  | Lru | Fifo | Rand
deriving DecidableEq, Repr

/-- Rust `struct Cache`: a `BTreeMap<&Item, OrderedFloat<f32>>` (modelled as
an association list in the map's iteration order), the hit policy, the
capacity (`size`) and the occupancy counter. -/
structure Cache where
  contents : List (Item × ℚ)
  policy : HitPolicy
  size : ℕ
  occupied : ℕ
deriving DecidableEq, Repr

/-- Rust `struct Tiebreaker`: a `VecDeque<&Item>` plus the tiebreaking
policy, capacity and occupancy counter. -/
structure Tiebreaker where
  order : List Item
  policy : TiebreakingPolicy
  size : ℕ
  occupied : ℕ
deriving DecidableEq, Repr

/-- Rust `struct Landlord`. -/
structure Landlord where
  cache : Cache
  tiebreaker : Tiebreaker
deriving DecidableEq, Repr

/-- Rust `enum RequestResult { Hit, Fault(f32) }`. -/
inductive RequestResult where
  | Hit
  | Fault (pressure : ℚ)
deriving DecidableEq, Repr

/-- The thread-local PRNG (`rand::rng()`), modelled as an explicit
stream of draws: naturals for integer `random_range` calls and
rationals for float `random_range` calls.  An exhausted stream yields
`0`s; no theorem below depends on that default. -/
structure Rng where
  ints : List ℕ
  floats : List ℚ
deriving DecidableEq, Repr

/-- Draw the next integer from the stream. -/
def Rng.nextInt (r : Rng) : ℕ × Rng :=
  match r.ints with
  | [] => (0, r)
  | n :: rest => (n, { r with ints := rest })

/-- Draw the next rational from the stream. -/
def Rng.nextFloat (r : Rng) : ℚ × Rng :=
  match r.floats with
  | [] => (0, r)
  | q :: rest => (q, { r with floats := rest })

/-- The fractional part of a rational, in `[0, 1)`: used to map an
arbitrary stream draw into the half-open range a float `random_range`
samples from. -/
def frac01 (q : ℚ) : ℚ := q - q.floor

/-! ### Association-list operations mirroring `BTreeMap` / `VecDeque` -/

/-- Rust `BTreeMap::get` by derived item equality. -/
def lookupC : List (Item × ℚ) → Item → Option ℚ
  | [], _ => none
  | p :: rest, k => if Item.eqDerived p.1 k then some p.2 else lookupC rest k

/-- Rust `BTreeMap::contains_key`. -/
def containsC (l : List (Item × ℚ)) (k : Item) : Bool :=
  (lookupC l k).isSome

/-- Rust `BTreeMap::insert`, keeping the list sorted by the derived item
order (the map's iteration order); an existing binding is replaced. -/
def insertC : List (Item × ℚ) → Item → ℚ → List (Item × ℚ)
  | [], k, v => [(k, v)]
  | p :: rest, k, v =>
    match Item.cmpDerived k p.1 with
    | .lt => (k, v) :: p :: rest
    | .eq => (k, v) :: rest
    | .gt => p :: insertC rest k v

/-- Rust `BTreeMap::remove`: drop the binding of `k` (keys are unique in a
map, so removing the first match is removal of the binding). -/
def removeC : List (Item × ℚ) → Item → List (Item × ℚ)
  | [], _ => []
  | p :: rest, k => if Item.eqDerived p.1 k then rest else p :: removeC rest k

/-- Mutation through `get_mut`: replace the credit bound to `k`. -/
def setC : List (Item × ℚ) → Item → ℚ → List (Item × ℚ)
  | [], _, _ => []
  | p :: rest, k, v =>
    if Item.eqDerived p.1 k then (k, v) :: rest else p :: setC rest k v

/-- Rust `VecDeque::remove(i)`: drop the element at index `i`. -/
def eraseAt : List Item → ℕ → List Item
  | [], _ => []
  | _ :: rest, 0 => rest
  | x :: rest, n + 1 => x :: eraseAt rest n

/-- Rust `VecDeque::insert(i, a)` for `i ≤ length` (the only situation the
embedding calls it in; the source panics otherwise, which callers below
check for explicitly). -/
def insertAt : List Item → ℕ → Item → List Item
  | l, 0, a => a :: l
  | [], _ + 1, a => [a]
  | x :: rest, n + 1, a => x :: insertAt rest n a

/-- Rust `iter().position(|n| *n == item)` on the tiebreaking order. -/
def posOf (l : List Item) (k : Item) : Option ℕ :=
  l.findIdx? (fun n => Item.eqDerived n k)

/-! ## The Landlord engine (`src/main.rs`, `impl Landlord`) -/

/-- Rust `Landlord::new(size, tiebreak_policy, hit_policy)`. -/
def Landlord.new (size : ℕ) (tp : TiebreakingPolicy) (hp : HitPolicy) : Landlord :=
  { cache := { contents := [], policy := hp, size := size, occupied := 0 }
    tiebreaker := { order := [], policy := tp, size := size, occupied := 0 } }

/-- Rust `Landlord::norm_credit`: `credit / (size as f32)` in binary32. -/
def normCredit (p : Item × ℚ) : ℚ := fdiv p.2 (fofNat p.1.size)

/-- Rust `Landlord::manage_tiebreak`: remove an evicted item from the
tiebreaking order and decrease the tiebreaker's occupancy.  The `u32`
subtraction is checked: underflow is a failure (`none`). -/
def manageTiebreak (item : Item) (tb : Tiebreaker) : Option Tiebreaker :=
  match posOf tb.order item with
  | none => some tb
  | some i =>
    if tb.occupied < item.size then none
    else some { tb with order := eraseAt tb.order i, occupied := tb.occupied - item.size }

/-- Rust `Landlord::update_tiebreak`.  For `Rand` the source draws from
`random_range(0..k - 1)` where `k` is the tiebreaker's *capacity*
(`self.tiebreaker.size`), not the length of the order: `k = 0` makes
the `u32` subtraction underflow and `k = 1` makes the range empty, and
`rand` panics on an empty range; a drawn index larger than the order's
length makes `VecDeque::insert` panic.  All three failures are `none`. -/
def updateTiebreak (item : Item) (L : Landlord) (r : Rng) : Option (Landlord × Rng) :=
  let idx? := posOf L.tiebreaker.order item
  let order1 :=
    match idx? with
    | some i => eraseAt L.tiebreaker.order i
    | none => L.tiebreaker.order
  match L.tiebreaker.policy with
  | .Lru =>
    some ({ L with tiebreaker := { L.tiebreaker with order := order1 ++ [item] } }, r)
  | .Fifo =>
    match idx? with
    | some i =>
      some ({ L with tiebreaker := { L.tiebreaker with order := insertAt order1 i item } }, r)
    | none =>
      some ({ L with tiebreaker := { L.tiebreaker with order := order1 ++ [item] } }, r)
  | .Rand =>
    let k := L.tiebreaker.size
    if k = 0 then none
    else if k - 1 = 0 then none
    else
      let d := r.nextInt
      let newIndex := d.1 % (k - 1)
      if order1.length < newIndex then none
      else
        some ({ L with tiebreaker := { L.tiebreaker with order := insertAt order1 newIndex item } }, d.2)

/-- Rust `Landlord::hit`: refresh the requested item's credit according to
the hit policy.  A missing item is the `"Could not find hit item"`
panic; the `NaN` check of the source cannot fire in this exact-rational
model.  Under `Rand` the source draws from
`random_range(old_credit..cost)`, which panics when the range is empty
(`old_credit ≥ cost`). -/
def hit (item : Item) (L : Landlord) (r : Rng) : Option (Landlord × Rng) :=
  match lookupC L.cache.contents item with
  | none => none
  | some cred =>
    match L.cache.policy with
    | .Lru =>
      some ({ L with cache := { L.cache with contents := setC L.cache.contents item item.get_cost } }, r)
    | .Fifo =>
      some ({ L with cache := { L.cache with contents := setC L.cache.contents item cred } }, r)
    | .Rand =>
      if cred < item.get_cost then
        let d := r.nextFloat
        let v := cred + frac01 d.1 * (item.get_cost - cred)
        some ({ L with cache := { L.cache with contents := setC L.cache.contents item v } }, d.2)
      else none
    | .Half =>
      some ({ L with cache := { L.cache with contents := setC L.cache.contents item (fdiv (fsub item.get_cost cred) 2) } }, r)

/-- Rust `Landlord::tiebreak`: a singleton zero set is returned directly;
otherwise the first item of the tiebreaking order that lies in the zero
set is chosen; an empty search is the
`"Tiebreaking order mismanagement"` panic. -/
def tiebreakPick (zeros : List Item) (order : List Item) : Option Item :=
  match zeros with
  | [z] => some z
  | _ => order.find? (fun cand => zeros.any (fun z => Item.eqDerived z cand))

/-- Rust `min_by_key(|a| a.1 / a.0.size)`: first minimum of the normalized
credits in map-iteration order (Rust's `min_by_key` keeps the first of
several equal minima). -/
def minNorm : List (Item × ℚ) → Option (Item × ℚ)
  | [] => none
  | p :: rest =>
    match minNorm rest with
    | none => some p
    | some q => if normCredit q < normCredit p then some q else some p

/-- The outcome of one unfolding of `Landlord::evict`. -/
inductive EvictStepRes where
  | base
  | panic
  | next (pres : ℚ) (L : Landlord)
deriving DecidableEq, Repr

/-- The decay pass of `Landlord::evict`:
`*cred -= min * item.get_size() as f32` for every cached item, in
binary32 arithmetic. -/
def decayedOf (min : ℚ) (contents : List (Item × ℚ)) : List (Item × ℚ) :=
  contents.map (fun p => (p.1, fsub p.2 (fmul min (fofNat p.1.size))))

/-- The zero-credit collection of `Landlord::evict`: the items whose
credit compares equal to `0.0` after the decay pass. -/
def zerosOf (decayed : List (Item × ℚ)) : List Item :=
  (decayed.filter (fun p => p.2 == 0)).map Prod.fst

/-- One non-recursive unfolding of `Landlord::evict`: the base-case
test, the minimum normalized credit, the decay pass, the zero-credit
collection, the tiebreak choice and the removal of the victim.  `u32`
subtractions on the occupancy counters are checked (underflow is
`panic`). -/
def evictStep (size : ℕ) (L : Landlord) : EvictStepRes :=
  if size ≤ L.cache.size - L.cache.occupied then .base
  else
    match minNorm L.cache.contents with
    | none => .panic
    | some m =>
      match tiebreakPick (zerosOf (decayedOf (normCredit m) L.cache.contents)) L.tiebreaker.order with
      | none => .panic
      | some victim =>
        match manageTiebreak victim L.tiebreaker with
        | none => .panic
        | some tb1 =>
          if L.cache.occupied < victim.size then .panic
          else
            .next (normCredit m)
              { cache :=
                  { L.cache with
                    contents := removeC (decayedOf (normCredit m) L.cache.contents) victim
                    occupied := L.cache.occupied - victim.size }
                tiebreaker := tb1 }

/-- Possible results of the recursive `Landlord::evict`. -/
inductive EvictRes where
  | ok (pres : ℚ) (L : Landlord)
  | panic
  | fuel
deriving DecidableEq, Repr

/-- Rust `Landlord::evict`, with an explicit fuel so the recursion is
structural; `evictFuel_no_fuel` below shows
`cache.contents.length + 1` units of fuel always suffice, so the
`.fuel` constructor is an artifact of the embedding and never the
value of `evict`. -/
def evictFuel (size : ℕ) : ℕ → Landlord → EvictRes
  | 0, _ => .fuel
  | fuel + 1, L =>
    match evictStep size L with
    | .base => .ok 0 L
    | .panic => .panic
    | .next min L1 =>
      match evictFuel size fuel L1 with
      | .ok p L2 => .ok (fadd min p) L2
      | r => r

/-- Rust `Landlord::evict`: run the recursion with sufficient fuel; any
panic is `none`. -/
def evict (size : ℕ) (L : Landlord) : Option (ℚ × Landlord) :=
  match evictFuel size (L.cache.contents.length + 1) L with
  | .ok p L1 => some (p, L1)
  | _ => none

/-- Rust `Landlord::fault`.  An overfull cache at entry is the
`"Cache is overfull"` panic.  With free space the item is inserted at
full cost and both occupancy counters grow.  Otherwise `evict` runs
first and the item is then inserted at full cost — the source updates
neither occupancy counter on this path. -/
def fault (item : Item) (L : Landlord) : Option (ℚ × Landlord) :=
  if L.cache.size < L.cache.occupied then none
  else if L.cache.occupied + item.size ≤ L.cache.size then
    some (0,
      { cache :=
          { L.cache with
            contents := insertC L.cache.contents item item.get_cost
            occupied := L.cache.occupied + item.size }
        tiebreaker := { L.tiebreaker with occupied := L.tiebreaker.occupied + item.size } })
  else
    match evict item.size L with
    | none => none
    | some pl =>
      some (pl.1,
        { pl.2 with cache := { pl.2.cache with contents := insertC pl.2.cache.contents item item.get_cost } })

/-- Rust `Landlord::request`: dispatch to the hit or fault path, then update
the tiebreaking order. -/
def request (item : Item) (L : Landlord) (r : Rng) : Option (RequestResult × Landlord × Rng) :=
  if containsC L.cache.contents item then
    match hit item L r with
    | none => none
    | some h =>
      match updateTiebreak item h.1 h.2 with
      | none => none
      | some u => some (.Hit, u.1, u.2)
  else
    match fault item L with
    | none => none
    | some pl =>
      match updateTiebreak item pl.2 r with
      | none => none
      | some u => some (.Fault pl.1, u.1, u.2)

/-! ## The tracker (`src/logger.rs`) -/

/-- Rust `enum RequestFullOrSuffix { Full(bool), Suff(bool) }`; the payload
is `true` on a hit. -/
inductive RequestFullOrSuffix where
  | Full (isHit : Bool)
  | Suff (isHit : Bool)
deriving DecidableEq, Repr

/-- The result of an `f32` division of two `u32` sums: a finite
binary32 value, or the IEEE special values produced by a zero divisor
(`0/0 = NaN`, `n/0 = +∞` for `n > 0`). -/
inductive F32 where
  | val (q : ℚ)
  | inf
  | nan
deriving DecidableEq, Repr

/-- Rust `a as f32 / b as f32` for `u32` values `a`, `b`: both casts and the
division round to binary32. -/
def divU32 (a b : ℕ) : F32 :=
  if b = 0 then (if a = 0 then .nan else .inf)
  else .val (fdiv (fofNat a) (fofNat b))

/-- Rust `item.get_cost().0 as u32`: the item's cost, through the `f32`
round trip the logger performs (`u32 → f32 → u32`, the latter cast
truncating toward zero). -/
def Item.costU32 (i : Item) : ℕ := (Rat.floor i.get_cost).toNat

/-- Association-list lookup keyed by label (`BTreeMap<String, _>`). -/
def lookupS : List (String × List ℕ) → String → Option (List ℕ)
  | [], _ => none
  | p :: rest, k => if p.1 == k then some p.2 else lookupS rest k

/-- Rust `get_mut` on a label-keyed map followed by `push_back(v)`: `none`
when the label is absent (the logger's `expect` panic). -/
def pushS : List (String × List ℕ) → String → ℕ → Option (List (String × List ℕ))
  | [], _, _ => none
  | p :: rest, k, v =>
    if p.1 == k then some ((p.1, p.2 ++ [v]) :: rest)
    else (pushS rest k v).map (fun m => p :: m)

/-- Rust `struct IndScr` of `logger.rs`: per-label cost sequences for the
full and suffix channels. -/
structure IndScr where
  full_costs : List (String × List ℕ)
  suff_costs : List (String × List ℕ)
deriving DecidableEq, Repr

/-- Rust `IndScr::new`: one empty sequence per label referenced by the
trace, in each map. -/
def IndScr.new (trace : List Item) : IndScr :=
  { full_costs := trace.foldl
      (fun m req => if (lookupS m req.label).isSome then m else m ++ [(req.label, [])]) []
    suff_costs := trace.foldl
      (fun m req => if (lookupS m req.label).isSome then m else m ++ [(req.label, [])]) [] }

/-- Rust `struct Tracker` of `logger.rs`. -/
structure Tracker where
  full_cost : List ℕ
  suff_cost : List ℕ
  full_pres : List ℚ
  suff_pres : List ℚ
  ind_scr : IndScr
deriving DecidableEq, Repr

/-- Rust `Tracker::new`. -/
def Tracker.new (trace : List Item) : Tracker :=
  { full_cost := [], suff_cost := [], full_pres := [], suff_pres := []
    ind_scr := IndScr.new trace }

/-- Rust `Tracker::get_full_cost`: point lookup, panics out of range. -/
def Tracker.get_full_cost (t : Tracker) (index : ℕ) : Option ℕ :=
  t.full_cost.get? index

/-- Rust `Tracker::get_full_cost_range`: `range(0..index).sum()`, which
panics (`none`) when `index` exceeds the sequence's length. -/
def Tracker.get_full_cost_range (t : Tracker) (index : ℕ) : Option ℕ :=
  if index ≤ t.full_cost.length then some ((t.full_cost.take index).sum) else none

/-- Rust `Tracker::get_suff_cost_range`: same on the suffix sequence. -/
def Tracker.get_suff_cost_range (t : Tracker) (index : ℕ) : Option ℕ :=
  if index ≤ t.suff_cost.length then some ((t.suff_cost.take index).sum) else none

/-- Rust `Tracker::get_scr`: `0.0` when nothing was ever logged to the full
sequence; otherwise the `f32` quotient of the two prefix sums over
`[0, index)`, each `range` call panicking (`none`) when `index` is out
of range. -/
def Tracker.get_scr (t : Tracker) (index : ℕ) : Option F32 :=
  if t.full_cost = [] then some (.val 0)
  else if index ≤ t.suff_cost.length then
    if index ≤ t.full_cost.length then
      some (divU32 ((t.suff_cost.take index).sum) ((t.full_cost.take index).sum))
    else none
  else none

/-- Rust `Tracker::get_ind_scr` of `logger.rs`: **both** the numerator and
the denominator are read from the `full_costs` map (the suffix map is
never consulted); a missing label is the `expect` panic and an
out-of-range `index` the `range` panic.  A zero denominator returns
`0.0` before dividing. -/
def Tracker.get_ind_scr (t : Tracker) (index : ℕ) (item : Item) : Option F32 :=
  match lookupS t.ind_scr.full_costs item.label with
  | none => none
  | some numSeq =>
    if index ≤ numSeq.length then
      match lookupS t.ind_scr.full_costs item.label with
      | none => none
      | some denSeq =>
        if index ≤ denSeq.length then
          let nsum := (numSeq.take index).sum
          let dsum := (denSeq.take index).sum
          if dsum = 0 then some (.val 0) else some (divU32 nsum dsum)
        else none
    else none

/-- Rust `Tracker::log_cost`: append `0` on a hit and the item's cost on a
fault, to the global sequence and to the item's own sequence of the
matching channel; a label missing from the per-item map is the
`expect` panic. -/
def Tracker.log_cost (t : Tracker) (item : Item) (rt : RequestFullOrSuffix) : Option Tracker :=
  let cost := item.costU32
  match rt with
  | .Full isHit =>
    let v := if isHit then 0 else cost
    match pushS t.ind_scr.full_costs item.label v with
    | none => none
    | some m =>
      some { t with full_cost := t.full_cost ++ [v]
                    ind_scr := { t.ind_scr with full_costs := m } }
  | .Suff isHit =>
    let v := if isHit then 0 else cost
    match pushS t.ind_scr.suff_costs item.label v with
    | none => none
    | some m =>
      some { t with suff_cost := t.suff_cost ++ [v]
                    ind_scr := { t.ind_scr with suff_costs := m } }

/-- Rust `Tracker::log_pres`: append `0` on a hit and the pressure on a
fault, to the matching pressure sequence. -/
def Tracker.log_pres (t : Tracker) (pressure : ℚ) (rt : RequestFullOrSuffix) : Tracker :=
  match rt with
  | .Full isHit =>
    { t with full_pres := t.full_pres ++ [if isHit then 0 else pressure] }
  | .Suff isHit =>
    { t with suff_pres := t.suff_pres ++ [if isHit then 0 else pressure] }

/-! ## The dead-code tracker (`src/cost.rs`) -/

/-- Rust `struct IndScr` of `cost.rs`: keyed by `&Item` instead of label. -/
structure IndScrC where
  full_costs : List (Item × List ℕ)
  suff_costs : List (Item × List ℕ)
deriving DecidableEq, Repr

/-- Association-list lookup keyed by derived item equality. -/
def lookupI : List (Item × List ℕ) → Item → Option (List ℕ)
  | [], _ => none
  | p :: rest, k => if Item.eqDerived p.1 k then some p.2 else lookupI rest k

/-- Rust `struct CostTracker` of `cost.rs` (the fields its `get_ind_scr`
reads). -/
structure CostTracker where
  full_cost : List ℕ
  suff_cost : List ℕ
  ind_scr : IndScrC
deriving DecidableEq, Repr

/-- Rust `CostTracker::get_ind_scr` of `cost.rs`: numerator from the
**suffix** map, denominator from the **full** map — the pairing the
spec describes for the per-item SCR. -/
def CostTracker.get_ind_scr (t : CostTracker) (index : ℕ) (item : Item) : Option F32 :=
  match lookupI t.ind_scr.suff_costs item with
  | none => none
  | some numSeq =>
    if index ≤ numSeq.length then
      match lookupI t.ind_scr.full_costs item with
      | none => none
      | some denSeq =>
        if index ≤ denSeq.length then
          let nsum := (numSeq.take index).sum
          let dsum := (denSeq.take index).sum
          if dsum = 0 then some (.val 0) else some (divU32 nsum dsum)
        else none
    else none

/-! ## The driver loop (`Landlord::run`) -/

/-- The Tracker updates `Landlord::run` performs for one engine's
request result on one channel: log the cost, then the pressure. -/
def logResult (t : Tracker) (req : Item) (res : RequestResult) (suff : Bool) : Option Tracker :=
  match res with
  | .Hit =>
    (t.log_cost req (if suff then .Suff true else .Full true)).map
      (fun t1 => t1.log_pres 0 (if suff then .Suff true else .Full true))
  | .Fault p =>
    (t.log_cost req (if suff then .Suff false else .Full false)).map
      (fun t1 => t1.log_pres p (if suff then .Suff false else .Full false))

/-- Rust `Landlord::run`, threading the loop state: the remaining trace, the
current position `i`, the suffix start, the suffix engine `s`, the full
engine `f`, the tracker and the PRNG stream.  Any engine or logger
panic aborts the run (`none`). -/
def runAux : List Item → ℕ → ℕ → Landlord → Landlord → Tracker → Rng →
    Option (Tracker × Landlord × Landlord × Rng)
  | [], _, _, s, f, t, r => some (t, s, f, r)
  | req :: rest, i, suffixStart, s, f, t, r =>
    match request req f r with
    | none => none
    | some rf =>
      match logResult t req rf.1 false with
      | none => none
      | some t1 =>
        if i < suffixStart then
          match t1.log_cost req (.Suff true) with
          | none => none
          | some t2 =>
            runAux rest (i + 1) suffixStart s rf.2.1 (t2.log_pres 0 (.Suff true)) rf.2.2
        else
          match request req s rf.2.2 with
          | none => none
          | some rs =>
            match logResult t1 req rs.1 true with
            | none => none
            | some t2 =>
              runAux rest (i + 1) suffixStart rs.2.1 rf.2.1 t2 rs.2.2

/-- Drop the PRNG component of a run result: the data `Landlord::run`
observably produces (tracker and final engine states). -/
def stripRng (o : Option (Tracker × Landlord × Landlord × Rng)) :
    Option (Tracker × Landlord × Landlord) :=
  o.map (fun x => (x.1, x.2.1, x.2.2.1))

/-! ## Concrete states used by the claims

The items of the specification's concrete scenarios
(`A=(10,1)`, `B=(4,1)`, `C=(6,1)`, …) and the states at which the
claims are settled. -/

/-- Item `A = (cost 10, size 1)`. -/
def exA : Item := ⟨"A", 10, 1⟩

/-- Item `B = (cost 4, size 1)`. -/
def exB : Item := ⟨"B", 4, 1⟩

/-- Item `C = (cost 6, size 1)`. -/
def exC : Item := ⟨"C", 6, 1⟩

/-- An empty PRNG stream (no RAND policy in play consumes it). -/
def rng0 : Rng := ⟨[], []⟩

/-- A distinct PRNG stream, for stream-independence statements. -/
def rng1 : Rng := ⟨[5, 3, 11], [mkRat 1 2, mkRat 1 3]⟩

/-- The total size of the items of a cache-contents list. -/
def sumSizes (l : List (Item × ℚ)) : ℕ := (l.map (fun p => p.1.size)).sum

/-- The specification's scenario 2: capacity 2, LRU/LRU, trace
`[A, B, C]` — the third request faults and evicts `B`. -/
def c1Trace : List Item := [exA, exB, exC]

/-- The run of scenario 2 (suffix start beyond the trace, so only the
full engine serves requests). -/
def c1Run : Option (Tracker × Landlord × Landlord × Rng) :=
  runAux c1Trace 0 3 (Landlord.new 2 .Lru .Lru) (Landlord.new 2 .Lru .Lru)
    (Tracker.new c1Trace) rng0

/-- Capacity-1 trace `[A, B, A]` with suffix start 2: the full engine
pays for `A` twice, the suffix engine pays for `A` once. -/
def c2Trace : List Item := [exA, exB, exA]

/-- The capacity-1 run used to interrogate the per-item SCR. -/
def c2Run : Option (Tracker × Landlord × Landlord × Rng) :=
  runAux c2Trace 0 2 (Landlord.new 1 .Lru .Lru) (Landlord.new 1 .Lru .Lru)
    (Tracker.new c2Trace) rng0

/-- The `CostTracker` (`src/cost.rs`) holding exactly the cost data the
`c2Run` tracker holds: global sequences `full = [10, 4, 10]`,
`suff = [0, 0, 10]`, and the per-item sequences of `A` and `B`. -/
def c2CostTracker : CostTracker :=
  { full_cost := [10, 4, 10]
    suff_cost := [0, 0, 10]
    ind_scr :=
      { full_costs := [(exA, [10, 10]), (exB, [4])]
        suff_costs := [(exA, [0, 10]), (exB, [0])] } }

/-- Item `W = (cost 31, size 7)`: the binary32 decay of its credit does
not cancel exactly. -/
def exW : Item := ⟨"W", 31, 7⟩

/-- Item `Z = (cost 5, size 7)`: its fault forces the eviction of `W`. -/
def exZ : Item := ⟨"Z", 5, 7⟩

/-- A capacity-7 engine caching `W` at full credit `31`: the state
`request(W)` produces from a fresh engine. -/
def c6L : Landlord :=
  { cache := { contents := [(exW, 31)], policy := .Lru, size := 7, occupied := 7 }
    tiebreaker := { order := [exW], policy := .Lru, size := 7, occupied := 7 } }

/-- The full two-request run `[W, Z]` on capacity-7 engines that
reaches the eviction of `W`. -/
def c6Run : Option (Tracker × Landlord × Landlord × Rng) :=
  runAux [exW, exZ] 0 2 (Landlord.new 7 .Lru .Lru) (Landlord.new 7 .Lru .Lru)
    (Tracker.new [exW, exZ]) rng0

/-- A fresh capacity-1 engine with the RAND tiebreaking policy (its
tiebreaking order is empty). -/
def c4L1 : Landlord := Landlord.new 1 .Rand .Lru

/-- A fresh capacity-5 engine with the RAND tiebreaking policy. -/
def c4L5 : Landlord := Landlord.new 5 .Rand .Lru

/-- A RAND-hit-policy engine caching `A` at credit `10 = cost(A)`: the
state reached immediately after `A` faults into a fresh engine. -/
def c5L : Landlord :=
  { cache := { contents := [(exA, 10)], policy := .Rand, size := 2, occupied := 1 }
    tiebreaker := { order := [exA], policy := .Lru, size := 2, occupied := 1 } }

/-- The engine state of scenario 2 just before its eviction: `A` at
credit 10 and `B` at credit 4 fill the capacity-2 cache. -/
def c9L : Landlord :=
  { cache := { contents := [(exA, 10), (exB, 4)], policy := .Lru, size := 2, occupied := 2 }
    tiebreaker := { order := [exA, exB], policy := .Lru, size := 2, occupied := 2 } }

/-- The state the eviction step of `c9L` produces: `B` evicted, `A`
decayed to credit 6. -/
def c9L1 : Landlord :=
  { cache := { contents := [(exA, 6)], policy := .Lru, size := 2, occupied := 1 }
    tiebreaker := { order := [exA], policy := .Lru, size := 2, occupied := 1 } }

/-- A tracker with two full-cost entries and one suffix-cost entry, for
exercising the range queries at in-range and out-of-range indices. -/
def c10T : Tracker :=
  { full_cost := [10, 4], suff_cost := [20], full_pres := [], suff_pres := []
    ind_scr := { full_costs := [], suff_costs := [] } }

section DecideEval

attribute [local semireducible] Rat.add Rat.sub Rat.mul Rat.inv

/-! ## Helper lemmas -/

/-- Derived item equality is structural equality of all three fields. -/
theorem eqDerived_iff {a b : Item} : Item.eqDerived a b = true ↔ a = b := by
  cases a; cases b
  simp [Item.eqDerived, Bool.and_eq_true, Item.mk.injEq, beq_iff_eq]
  tauto

/-! ## C1 -/

/-- C1: the claimed invariant `occupied = Σ size(i) for i in contents`
fails on the code.  In the specification's own scenario 2 (capacity 2,
LRU/LRU, trace `[A, B, C]`), the fault on `C` evicts `B` and re-inserts
`C` without incrementing `occupied`: the run ends with `occupied = 1`
while the cached items `A` and `C` have total size `2`. -/
theorem claim_C1_bug :
    c1Run.map (fun x => (x.2.2.1.cache.occupied, sumSizes x.2.2.1.cache.contents)) =
      some (1, 2) ∧ (1 : ℕ) ≠ 2 := by
  exact ⟨by decide, by decide⟩

/-! ## C2 -/

/-- C2: the per-item SCR of the live tracker (`logger.rs`) reads the
full-cost map for both the numerator and the denominator, so on the
capacity-1 run of `[A, B, A]` (suffix start 2) it returns `1.0` for `A`
at `k = 2`, while the pairing the claim describes — implemented by the
dead `cost.rs` tracker over the same data — returns `0.5`. -/
theorem claim_C2_bug :
    c2Run.map (fun x => x.1.get_ind_scr 2 exA) = some (some (.val 1)) ∧
    c2CostTracker.get_ind_scr 2 exA = some (.val (mkRat 1 2)) ∧
    F32.val 1 ≠ F32.val (mkRat 1 2) := by
  exact ⟨by decide, by decide, by decide⟩

/-! ## C3 -/

/-- C3 counterexample: after the run of `[A, B, A]` costs have been
logged (`full_cost = [10, 4, 10]` is non-empty), yet `scr(0)` — whose
denominator, the full-cost prefix sum over `[0, 0)`, is `0` — returns
the IEEE quotient `0/0 = NaN` rather than the `0` the claim states. -/
theorem claim_C3_counterexample :
    c2Run.map (fun x => x.1.get_scr 0) = some (some F32.nan) ∧ F32.nan ≠ F32.val 0 := by
  exact ⟨by decide, by decide⟩

/-- C3 as amended: `scr(k)` returns `0` when no costs have been logged
(the full sequence is empty, whatever `k`); otherwise, for `k` within
both logged lengths, it returns the IEEE `f32` quotient of the prefix
sums, which for a zero denominator is `NaN` (zero numerator) or `+∞`
(positive numerator) — not `0`; and for `k` beyond either logged length
it panics. -/
theorem claim_C3 (t : Tracker) (k : ℕ) :
    (t.full_cost = [] → t.get_scr k = some (.val 0)) ∧
    (t.full_cost ≠ [] → k ≤ t.suff_cost.length → k ≤ t.full_cost.length →
      t.get_scr k = some (divU32 ((t.suff_cost.take k).sum) ((t.full_cost.take k).sum)) ∧
      ((t.full_cost.take k).sum = 0 → (t.suff_cost.take k).sum = 0 →
        t.get_scr k = some .nan) ∧
      ((t.full_cost.take k).sum = 0 → (t.suff_cost.take k).sum ≠ 0 →
        t.get_scr k = some .inf)) ∧
    (t.full_cost ≠ [] → t.suff_cost.length < k ∨ t.full_cost.length < k →
      t.get_scr k = none) := by
  refine ⟨fun h => ?_, fun h hs hf => ⟨?_, fun hd hn => ?_, fun hd hn => ?_⟩,
    fun h hout => ?_⟩
  · simp [Tracker.get_scr, h]
  · simp [Tracker.get_scr, h, hs, hf]
  · simp [Tracker.get_scr, h, hs, hf, divU32, hd, hn]
  · simp [Tracker.get_scr, h, hs, hf, divU32, hd, hn]
  · rcases hout with hout | hout
    · simp [Tracker.get_scr, h, Nat.not_le.2 hout]
    · by_cases hs2 : k ≤ t.suff_cost.length
      · simp [Tracker.get_scr, h, hs2, Nat.not_le.2 hout]
      · simp [Tracker.get_scr, h, hs2]

/-- Witness for the amended C3 at concrete inputs: an in-range query
returning the quotient and an out-of-range query panicking. -/
theorem claim_C3_witness :
    Tracker.get_scr c10T 1 =
      some (divU32 ((c10T.suff_cost.take 1).sum) ((c10T.full_cost.take 1).sum)) ∧
    Tracker.get_scr c10T 3 = none := by
  exact ⟨((claim_C3 c10T 1).2.1 (by decide) (by decide) (by decide)).1,
    (claim_C3 c10T 3).2.2 (by decide) (Or.inl (by decide))⟩

/-! ## C4 -/

/-- C4: the RAND tiebreak insertion draws from
`random_range(0..capacity - 1)` — the cache capacity, not the order's
length.  With capacity 1 and an empty order (a fresh engine's first
fault) the range `0..0` is empty and `rand` panics, and with capacity 5
and an empty order a drawn index `3` exceeds the order length and
`VecDeque::insert` panics: both contradict the claimed success on empty
and length-one orders. -/
theorem claim_C4_bug :
    updateTiebreak exA c4L1 rng0 = none ∧
    updateTiebreak exA c4L5 ⟨[3], []⟩ = none := by
  exact ⟨by decide, by decide⟩

/-! ## C5 -/

/-- C5: on a RAND-policy hit with `old_credit = cost(i)` — here `A`
cached at credit `10 = cost(A)`, the state reached right after `A`
faults in — the source draws from the empty range
`random_range(10.0..10.0)` and panics instead of refreshing the credit
to `cost(i)` as the claim states. -/
theorem claim_C5_bug :
    lookupC c5L.cache.contents exA = some exA.get_cost ∧
    hit exA c5L rng0 = none ∧
    request exA c5L rng0 = none := by
  exact ⟨by decide, by decide, by decide⟩

/-! ## C6 -/

/-- C6: the decay pass does not always produce an exact zero credit in
binary32 arithmetic.  With the single item `W = (cost 31, size 7)`
cached at credit `31` in a capacity-7 cache, `μ = fl(31/7)` and
`fl(31 − fl(μ·7)) = 2⁻¹⁹ ≠ 0`: the zeros set is empty, the tiebreak
step panics (`"Tiebreaking order mismanagement"`), and the two-request
run `[W, Z]` that reaches this eviction aborts. -/
theorem claim_C6_bug :
    (decayedOf (normCredit (exW, (31 : ℚ))) c6L.cache.contents).map Prod.snd =
      [mkRat 1 524288] ∧
    minNorm c6L.cache.contents = some (exW, (31 : ℚ)) ∧
    evictStep 7 c6L = .panic ∧
    c6Run = none := by
  exact ⟨by decide, by decide, by decide, by decide⟩

/-! ## C8 -/

/-- C8 counterexample: two items with the same label `"a"` but
different costs are *not* equal under the derived comparisons — the
derived `PartialEq`/`Ord` compare every field, not the label alone. -/
theorem claim_C8_counterexample :
    Item.eqDerived ⟨"a", 1, 1⟩ ⟨"a", 2, 1⟩ = false ∧
    Item.cmpDerived ⟨"a", 1, 1⟩ ⟨"a", 2, 1⟩ ≠ .eq := by
  exact ⟨by decide, by decide⟩

/-- C8 as amended: the derived equality and ordering on items are
lexicographic over all three fields `(label, cost, size)` — two items
compare equal iff all three fields agree (with unique labels per trace
this coincides with comparison by label, but label equality alone does
not imply item equality). -/
theorem claim_C8 (a b : Item) :
    (Item.eqDerived a b = true ↔ a = b) ∧
    (Item.cmpDerived a b = .eq ↔ a = b) := by
  refine ⟨eqDerived_iff, ?_⟩
  unfold Item.cmpDerived
  constructor
  · intro h
    cases hl : compare a.label b.label <;> rw [hl] at h
    · exact absurd h (by simp)
    · have h1 : (match compare a.cost b.cost with
          | Ordering.eq => compare a.size b.size
          | o => o) = Ordering.eq := h
      cases hc : compare a.cost b.cost <;> rw [hc] at h1
      · exact absurd h1 (by simp)
      · have h2 : compare a.size b.size = Ordering.eq := h1
        cases a; cases b
        simp only [Item.mk.injEq]
        exact ⟨compare_eq_iff_eq.1 hl, compare_eq_iff_eq.1 hc, compare_eq_iff_eq.1 h2⟩
      · exact absurd h1 (by simp)
    · exact absurd h (by simp)
  · intro h
    subst h
    rw [compare_eq_iff_eq.2 rfl, compare_eq_iff_eq.2 rfl, compare_eq_iff_eq.2 rfl]

/-! ## C10 -/

/-- C10: the prefix-sum queries return the sum over `[0, k)` exactly
when `k` is at most the number of logged entries, and panic
(`VecDeque::range` is out of range) for every strictly larger `k`. -/
theorem claim_C10 (t : Tracker) (k : ℕ) :
    (k ≤ t.full_cost.length → t.get_full_cost_range k = some ((t.full_cost.take k).sum)) ∧
    (t.full_cost.length < k → t.get_full_cost_range k = none) ∧
    (k ≤ t.suff_cost.length → t.get_suff_cost_range k = some ((t.suff_cost.take k).sum)) ∧
    (t.suff_cost.length < k → t.get_suff_cost_range k = none) := by
  refine ⟨fun h => ?_, fun h => ?_, fun h => ?_, fun h => ?_⟩
  · simp [Tracker.get_full_cost_range, h]
  · simp [Tracker.get_full_cost_range, Nat.not_le.2 h]
  · simp [Tracker.get_suff_cost_range, h]
  · simp [Tracker.get_suff_cost_range, Nat.not_le.2 h]

/-- Witness for C10 at the concrete tracker `c10T`: an in-range query
on the full sequence and an out-of-range query on the suffix
sequence. -/
theorem claim_C10_witness :
    Tracker.get_full_cost_range c10T 2 = some ((c10T.full_cost.take 2).sum) ∧
    Tracker.get_suff_cost_range c10T 2 = none := by
  exact ⟨(claim_C10 c10T 2).1 (by decide), (claim_C10 c10T 2).2.2.2 (by decide)⟩

/-! ## C9: helper lemmas -/

/-- An item chosen by the tiebreak step belongs to the zero set it was
chosen from. -/
theorem tiebreakPick_mem {zeros order : List Item} {v : Item}
    (h : tiebreakPick zeros order = some v) : v ∈ zeros := by
  rcases zeros with _ | ⟨z, _ | ⟨z2, rest⟩⟩
  · simp only [tiebreakPick] at h
    have hp := List.find?_some h
    simp at hp
  · simp only [tiebreakPick] at h
    cases h
    exact List.mem_singleton_self _
  · simp only [tiebreakPick] at h
    have hp := List.find?_some h
    simp only [List.any_eq_true] at hp
    obtain ⟨z1, hz1, he⟩ := hp
    exact (eqDerived_iff.1 he) ▸ hz1

/-- Every item of the zero set is a key of the decayed contents. -/
theorem zerosOf_subset {decayed : List (Item × ℚ)} {v : Item}
    (h : v ∈ zerosOf decayed) : v ∈ decayed.map Prod.fst := by
  simp only [zerosOf, List.mem_map] at h
  obtain ⟨p, hp, hpv⟩ := h
  exact hpv ▸ List.mem_map_of_mem _ (List.mem_of_mem_filter hp)

/-- The decay pass keeps the item keys. -/
theorem decayedOf_fst (min : ℚ) (contents : List (Item × ℚ)) :
    (decayedOf min contents).map Prod.fst = contents.map Prod.fst := by
  simp [decayedOf, List.map_map, Function.comp]

/-- Removing a present key shortens the association list by exactly
one entry. -/
theorem removeC_length {l : List (Item × ℚ)} {v : Item}
    (hv : v ∈ l.map Prod.fst) : (removeC l v).length + 1 = l.length := by
  induction l with
  | nil => simp at hv
  | cons p rest ih =>
    simp only [removeC]
    by_cases hp : Item.eqDerived p.1 v
    · simp [hp]
    · rw [if_neg hp]
      have hv' : v ∈ rest.map Prod.fst := by
        rw [List.map_cons] at hv
        rcases List.mem_cons.1 hv with h | h
        · exact absurd (eqDerived_iff.2 h.symm) hp
        · exact h
      simp [ih hv']

/-- Fields `manage_tiebreak` leaves untouched. -/
theorem manageTiebreak_fields {v : Item} {tb tb1 : Tiebreaker}
    (h : manageTiebreak v tb = some tb1) :
    tb1.policy = tb.policy ∧ tb1.size = tb.size := by
  unfold manageTiebreak at h
  split at h
  · cases h; exact ⟨rfl, rfl⟩
  · split at h
    · exact Option.noConfusion h
    · cases h; exact ⟨rfl, rfl⟩

/-- Dissection of a successful eviction step: the victim is a cached
item, its size fits under the occupancy counter (the checked `u32`
subtraction succeeded), the occupancy counter drops by the victim's
size, the contents shrink by exactly one entry, and the policy and
capacity fields are untouched. -/
theorem evictStep_next {size : ℕ} {L : Landlord} {μ : ℚ} {L1 : Landlord}
    (h : evictStep size L = .next μ L1) :
    ∃ victim, victim ∈ L.cache.contents.map Prod.fst ∧
      victim.size ≤ L.cache.occupied ∧
      L1.cache.occupied = L.cache.occupied - victim.size ∧
      L1.cache.contents.length + 1 = L.cache.contents.length ∧
      L1.cache.policy = L.cache.policy ∧
      L1.cache.size = L.cache.size ∧
      L1.tiebreaker.policy = L.tiebreaker.policy := by
  unfold evictStep at h
  split at h
  · exact EvictStepRes.noConfusion h
  · split at h
    · exact EvictStepRes.noConfusion h
    · rename_i m hmin
      split at h
      · exact EvictStepRes.noConfusion h
      · rename_i victim hpick
        split at h
        · exact EvictStepRes.noConfusion h
        · rename_i tb1 hmtb
          split at h
          · exact EvictStepRes.noConfusion h
          · rename_i hocc
            cases h
            have hmem : victim ∈ L.cache.contents.map Prod.fst :=
              decayedOf_fst (normCredit m) L.cache.contents ▸
                zerosOf_subset (tiebreakPick_mem hpick)
            refine ⟨victim, hmem, Nat.not_lt.1 hocc, rfl, ?_, rfl, rfl,
              (manageTiebreak_fields hmtb).1⟩
            have hlen : (removeC (decayedOf (normCredit m) L.cache.contents) victim).length + 1 =
                (decayedOf (normCredit m) L.cache.contents).length := by
              refine removeC_length ?_
              rw [decayedOf_fst]
              exact hmem
            simpa [decayedOf] using hlen

/-- With enough fuel — one unit more than the number of cached items —
the fuelled eviction recursion never exhausts its fuel: each recursive
step removes one cached item. -/
theorem evictFuel_no_fuel (size : ℕ) :
    ∀ (fuel : ℕ) (L : Landlord), L.cache.contents.length < fuel →
      evictFuel size fuel L ≠ .fuel := by
  intro fuel
  induction fuel with
  | zero => intro L h; omega
  | succ n ih =>
    intro L h
    simp only [evictFuel]
    cases hstep : evictStep size L with
    | base => simp
    | panic => simp
    | next μ L1 =>
      obtain ⟨v, hv, hle, hocc, hlen, _⟩ := evictStep_next hstep
      have h2 := ih L1 (by omega)
      cases hfe : evictFuel size n L1 with
      | ok p L2 => simp [hfe]
      | panic => simp [hfe]
      | fuel => exact absurd hfe h2

/-! ## C9 -/

/-- C9: a successful non-base eviction step strictly decreases the
cache's occupancy counter whenever every cached item has positive size,
and the eviction recursion always terminates within
`contents.length + 1` steps (each recursive step removes one cached
item, so the fuelled embedding never exhausts its fuel). -/
theorem claim_C9 (size : ℕ) (L L1 : Landlord) (μ : ℚ)
    (hpos : ∀ p ∈ L.cache.contents, 0 < p.1.size)
    (hstep : evictStep size L = .next μ L1) :
    L1.cache.occupied < L.cache.occupied ∧
    evictFuel size (L.cache.contents.length + 1) L ≠ .fuel := by
  obtain ⟨v, hv, hle, hocc, _, _⟩ := evictStep_next hstep
  have hvpos : 0 < v.size := by
    obtain ⟨p, hp, hpv⟩ := List.mem_map.1 hv
    exact hpv ▸ hpos p hp
  constructor
  · rw [hocc]
    exact Nat.sub_lt (Nat.lt_of_lt_of_le hvpos hle) hvpos
  · exact evictFuel_no_fuel size _ L (Nat.lt_succ_self _)

/-- Witness for C9: scenario 2's eviction (needed size 1, `A` at
credit 10 and `B` at credit 4 in a full capacity-2 cache) steps to the
state with `B` evicted; the occupancy counter drops from 2 to 1 and
the recursion terminates. -/
theorem claim_C9_witness :
    c9L1.cache.occupied < c9L.cache.occupied ∧
    evictFuel 1 (c9L.cache.contents.length + 1) c9L ≠ .fuel := by
  exact claim_C9 1 c9L c9L1 4 (by decide) (by decide)

/-! ## C7: helper lemmas -/

/-- A hit leaves the hit policy, the capacity and the whole tiebreaker
untouched (it only rewrites one credit). -/
theorem hit_fields {item : Item} {L : Landlord} {r : Rng} {h1 : Landlord × Rng}
    (h : hit item L r = some h1) :
    h1.1.cache.policy = L.cache.policy ∧ h1.1.cache.size = L.cache.size ∧
    h1.1.tiebreaker = L.tiebreaker := by
  unfold hit at h
  split at h
  · exact Option.noConfusion h
  · split at h
    · cases h; exact ⟨rfl, rfl, rfl⟩
    · cases h; exact ⟨rfl, rfl, rfl⟩
    · split at h
      · cases h; exact ⟨rfl, rfl, rfl⟩
      · exact Option.noConfusion h
    · cases h; exact ⟨rfl, rfl, rfl⟩

/-- Under a non-RAND hit policy a hit neither consumes nor depends on
the PRNG stream: it returns the stream it was given. -/
theorem hit_pass {item : Item} {L : Landlord} (r r' : Rng)
    (hh : L.cache.policy = .Lru ∨ L.cache.policy = .Fifo) :
    hit item L r = (hit item L r').map (fun x => (x.1, r)) := by
  unfold hit
  cases hl : lookupC L.cache.contents item with
  | none => simp
  | some cred => rcases hh with h | h <;> rw [h] <;> simp

/-- A tiebreak update leaves the cache and the tiebreak policy
untouched (it only rewrites the order). -/
theorem updateTiebreak_fields {item : Item} {L : Landlord} {r : Rng} {u : Landlord × Rng}
    (h : updateTiebreak item L r = some u) :
    u.1.cache = L.cache ∧ u.1.tiebreaker.policy = L.tiebreaker.policy := by
  simp only [updateTiebreak] at h
  split at h
  · cases h; exact ⟨rfl, rfl⟩
  · split at h
    · cases h; exact ⟨rfl, rfl⟩
    · cases h; exact ⟨rfl, rfl⟩
  · split at h
    · exact Option.noConfusion h
    · split at h
      · exact Option.noConfusion h
      · split at h
        · exact Option.noConfusion h
        · cases h; exact ⟨rfl, rfl⟩

/-- Under a non-RAND tiebreak policy the tiebreak update neither
consumes nor depends on the PRNG stream. -/
theorem updateTiebreak_pass {item : Item} {L : Landlord} (r r' : Rng)
    (ht : L.tiebreaker.policy = .Lru ∨ L.tiebreaker.policy = .Fifo) :
    updateTiebreak item L r = (updateTiebreak item L r').map (fun x => (x.1, r)) := by
  rcases ht with h | h <;> simp only [updateTiebreak, h]
  · simp
  · cases hi : posOf L.tiebreaker.order item <;> simp [hi]

/-- The fuelled eviction recursion preserves the policy and capacity
fields of a state it returns. -/
theorem evictFuel_fields (size : ℕ) :
    ∀ (fuel : ℕ) (L : Landlord) (p : ℚ) (L2 : Landlord),
      evictFuel size fuel L = .ok p L2 →
      L2.cache.policy = L.cache.policy ∧ L2.cache.size = L.cache.size ∧
      L2.tiebreaker.policy = L.tiebreaker.policy := by
  intro fuel
  induction fuel with
  | zero => intro L p L2 h; exact EvictRes.noConfusion h
  | succ n ih =>
    intro L p L2 h
    simp only [evictFuel] at h
    split at h
    · cases h; exact ⟨rfl, rfl, rfl⟩
    · exact EvictRes.noConfusion h
    · rename_i μ L1 hstep
      cases hfe : evictFuel size n L1 with
      | ok q L3 =>
        rw [hfe] at h
        cases h
        obtain ⟨a1, a2, a3⟩ := ih L1 _ _ hfe
        obtain ⟨v, _, _, _, _, b1, b2, b3⟩ := evictStep_next hstep
        exact ⟨a1.trans b1, a2.trans b2, a3.trans b3⟩
      | panic => rw [hfe] at h; exact EvictRes.noConfusion h
      | fuel => rw [hfe] at h; exact EvictRes.noConfusion h

/-- Eviction preserves the policy and capacity fields. -/
theorem evict_fields {size : ℕ} {L : Landlord} {pl : ℚ × Landlord}
    (h : evict size L = some pl) :
    pl.2.cache.policy = L.cache.policy ∧ pl.2.cache.size = L.cache.size ∧
    pl.2.tiebreaker.policy = L.tiebreaker.policy := by
  unfold evict at h
  cases hfe : evictFuel size (L.cache.contents.length + 1) L with
  | ok q L3 =>
    rw [hfe] at h
    cases h
    exact evictFuel_fields size _ L q L3 hfe
  | panic => rw [hfe] at h; exact Option.noConfusion h
  | fuel => rw [hfe] at h; exact Option.noConfusion h

/-- A fault preserves the policy and capacity fields. -/
theorem fault_fields {item : Item} {L : Landlord} {pl : ℚ × Landlord}
    (h : fault item L = some pl) :
    pl.2.cache.policy = L.cache.policy ∧ pl.2.cache.size = L.cache.size ∧
    pl.2.tiebreaker.policy = L.tiebreaker.policy := by
  unfold fault at h
  split at h
  · exact Option.noConfusion h
  · split at h
    · cases h; exact ⟨rfl, rfl, rfl⟩
    · cases hev : evict item.size L with
      | none => rw [hev] at h; exact Option.noConfusion h
      | some pl1 =>
        rw [hev] at h
        cases h
        obtain ⟨e1, e2, e3⟩ := evict_fields hev
        exact ⟨e1, e2, e3⟩

/-- A request preserves the policy fields of the engine. -/
theorem request_fields {item : Item} {L : Landlord} {r : Rng}
    {x : RequestResult × Landlord × Rng} (h : request item L r = some x) :
    x.2.1.cache.policy = L.cache.policy ∧
    x.2.1.tiebreaker.policy = L.tiebreaker.policy := by
  unfold request at h
  split at h
  · split at h
    · exact Option.noConfusion h
    · rename_i h1 hh
      split at h
      · exact Option.noConfusion h
      · rename_i u hu
        cases h
        obtain ⟨hc, htb⟩ := updateTiebreak_fields hu
        obtain ⟨p1, _, p3⟩ := hit_fields hh
        exact ⟨by rw [hc, p1], by rw [htb, p3]⟩
  · split at h
    · exact Option.noConfusion h
    · rename_i pl hf
      split at h
      · exact Option.noConfusion h
      · rename_i u hu
        cases h
        obtain ⟨hc, htb⟩ := updateTiebreak_fields hu
        obtain ⟨p1, _, p3⟩ := fault_fields hf
        exact ⟨by rw [hc, p1], by rw [htb, p3]⟩

/-- Under non-RAND hit and tiebreak policies a request neither
consumes nor depends on the PRNG stream. -/
theorem request_pass {item : Item} {L : Landlord} (r r' : Rng)
    (hh : L.cache.policy = .Lru ∨ L.cache.policy = .Fifo)
    (ht : L.tiebreaker.policy = .Lru ∨ L.tiebreaker.policy = .Fifo) :
    request item L r = (request item L r').map (fun x => (x.1, x.2.1, r)) := by
  unfold request
  by_cases hc : containsC L.cache.contents item
  · simp only [hc, if_true]
    rw [hit_pass r r' hh]
    cases hh' : hit item L r' with
    | none => simp
    | some h1 =>
      simp only [Option.map_some']
      have ht1 : h1.1.tiebreaker.policy = .Lru ∨ h1.1.tiebreaker.policy = .Fifo := by
        rw [(hit_fields hh').2.2]; exact ht
      rw [updateTiebreak_pass r h1.2 ht1]
      cases hu : updateTiebreak item h1.1 h1.2 with
      | none => simp
      | some u => simp
  · simp only [hc, if_false]
    cases hf : fault item L with
    | none => simp
    | some pl =>
      simp only []
      have ht1 : pl.2.tiebreaker.policy = .Lru ∨ pl.2.tiebreaker.policy = .Fifo := by
        rw [(fault_fields hf).2.2]; exact ht
      rw [updateTiebreak_pass r r' ht1]
      cases hu : updateTiebreak item pl.2 r' with
      | none => simp
      | some u => simp

/-- The driver loop's observable output (tracker and engine states) is
independent of the PRNG stream when both engines run non-RAND hit and
tiebreak policies: no step of the loop consumes the stream. -/
theorem runAux_rng_indep :
    ∀ (trace : List Item) (i ss : ℕ) (s f : Landlord) (t : Tracker) (r1 r2 : Rng),
      (s.cache.policy = .Lru ∨ s.cache.policy = .Fifo) →
      (s.tiebreaker.policy = .Lru ∨ s.tiebreaker.policy = .Fifo) →
      (f.cache.policy = .Lru ∨ f.cache.policy = .Fifo) →
      (f.tiebreaker.policy = .Lru ∨ f.tiebreaker.policy = .Fifo) →
      stripRng (runAux trace i ss s f t r1) = stripRng (runAux trace i ss s f t r2) := by
  intro trace
  induction trace with
  | nil => intro i ss s f t r1 r2 _ _ _ _; rfl
  | cons req rest ih =>
    intro i ss s f t r1 r2 hs1 hs2 hf1 hf2
    simp only [runAux]
    rw [request_pass r1 r2 hf1 hf2]
    cases hrf : request req f r2 with
    | none => rfl
    | some rf =>
      simp only [Option.map_some']
      have hff := request_fields hrf
      cases hlog : logResult t req rf.1 false with
      | none => rfl
      | some t1 =>
        by_cases hi : i < ss
        · simp only [hi, if_true]
          cases hc2 : t1.log_cost req (.Suff true) with
          | none => rfl
          | some t2 =>
            exact ih (i + 1) ss s rf.2.1 (t2.log_pres 0 (.Suff true)) r1 rf.2.2
              hs1 hs2 (hff.1 ▸ hf1) (hff.2 ▸ hf2)
        · simp only [hi, if_false]
          rw [request_pass r1 rf.2.2 hs1 hs2]
          cases hrs : request req s rf.2.2 with
          | none => rfl
          | some rs =>
            simp only [Option.map_some']
            have hsf := request_fields hrs
            cases hlog2 : logResult t1 req rs.1 true with
            | none => rfl
            | some t2 =>
              exact ih (i + 1) ss rs.2.1 rf.2.1 t2 r1 rs.2.2
                (hsf.1 ▸ hs1) (hsf.2 ▸ hs2) (hff.1 ▸ hf1) (hff.2 ▸ hf2)

/-! ## C7 -/

/-- C7: with the PRNG modelled as an explicit stream of draws (the
formal content of "the same seed"), two runs of the same trace with the
same stream produce identical results for every policy combination —
the run is a function of its inputs; and with {LRU, FIFO} hit and
tiebreak policies on both engines the observable output (tracker
sequences and final engine states) does not depend on the stream at
all: the engine is a deterministic function of the trace. -/
theorem claim_C7 (trace : List Item) (i ss : ℕ) (s f : Landlord) (t : Tracker) (r1 r2 : Rng) :
    (r1 = r2 → runAux trace i ss s f t r1 = runAux trace i ss s f t r2) ∧
    ((s.cache.policy = .Lru ∨ s.cache.policy = .Fifo) →
     (s.tiebreaker.policy = .Lru ∨ s.tiebreaker.policy = .Fifo) →
     (f.cache.policy = .Lru ∨ f.cache.policy = .Fifo) →
     (f.tiebreaker.policy = .Lru ∨ f.tiebreaker.policy = .Fifo) →
     stripRng (runAux trace i ss s f t r1) = stripRng (runAux trace i ss s f t r2)) := by
  exact ⟨fun h => by rw [h],
    fun h1 h2 h3 h4 => runAux_rng_indep trace i ss s f t r1 r2 h1 h2 h3 h4⟩

/-- Witness for C7: the one-request LRU/LRU run of `[A]` replayed with
the same stream is identical, and its observable output with the empty
stream equals the output with a different, non-empty stream. -/
theorem claim_C7_witness :
    (runAux [exA] 0 0 (Landlord.new 2 .Lru .Lru) (Landlord.new 2 .Lru .Lru)
        (Tracker.new [exA]) rng0 =
      runAux [exA] 0 0 (Landlord.new 2 .Lru .Lru) (Landlord.new 2 .Lru .Lru)
        (Tracker.new [exA]) rng0) ∧
    stripRng (runAux [exA] 0 0 (Landlord.new 2 .Lru .Lru) (Landlord.new 2 .Lru .Lru)
        (Tracker.new [exA]) rng0) =
      stripRng (runAux [exA] 0 0 (Landlord.new 2 .Lru .Lru) (Landlord.new 2 .Lru .Lru)
        (Tracker.new [exA]) rng1) := by
  exact ⟨(claim_C7 [exA] 0 0 (Landlord.new 2 .Lru .Lru) (Landlord.new 2 .Lru .Lru)
      (Tracker.new [exA]) rng0 rng0).1 rfl,
    (claim_C7 [exA] 0 0 (Landlord.new 2 .Lru .Lru) (Landlord.new 2 .Lru .Lru)
      (Tracker.new [exA]) rng0 rng1).2 (Or.inl rfl) (Or.inl rfl) (Or.inl rfl) (Or.inl rfl)⟩

end DecideEval

end Csim
